import Mathlib

/-!
Shallow embedding of the social-graph and feed-assembly core of the
`python-backend-with-go` repository, together with proofs of the
specification's claims about it.

Go maps (`map[K]V`) are modelled as association lists in which an
assignment `m[k] = v` first removes every binding of `k` and then adds the
new one, so lookup, membership and entry counts agree with Go map
semantics.  The `map[int]map[int]bool` index maps are modelled as their
characteristic functions `Int → Int → Bool`: reading a missing outer key in
Go yields a `nil` inner map whose reads are all `false`, which is exactly
the all-`false` function, and a guarded `delete` on a possibly-`nil` inner
map is an unconditional update of the bit to `false`.  `time.Time` values
are modelled as integers ordered as the `After` comparison orders times.
Go `error` results are modelled as `Option String` holding the error
message (`none` = the `nil` error).  The one machine integer that is
arithmetically modified, the post-id counter, carries Go's 64-bit
two's-complement wraparound explicitly (`wrap64`); all other integers are
only compared, never computed with, so plain `Int` models them exactly.
-/

/-- Go map lookup `v, ok := m[k]` on the association-list model. -/
def mapLookup {κ α : Type} [DecidableEq κ] (k : κ) : List (κ × α) → Option α
  | [] => none
  | e :: rest => if e.1 = k then some e.2 else mapLookup k rest

/-- Go map deletion `delete(m, k)` on the association-list model. -/
def mapErase {κ α : Type} [DecidableEq κ] (k : κ) : List (κ × α) → List (κ × α)
  | [] => []
  | e :: rest => if e.1 = k then mapErase k rest else e :: mapErase k rest

/-- Go map assignment `m[k] = v` on the association-list model. -/
def mapInsert {κ α : Type} [DecidableEq κ] (k : κ) (v : α) (l : List (κ × α)) :
    List (κ × α) :=
  (k, v) :: mapErase k l

/-- Number of entries stored under key `k` (for a Go map this is 0 or 1). -/
def countKey {κ α : Type} [DecidableEq κ] (k : κ) : List (κ × α) → Nat
  | [] => 0
  | e :: rest => (if e.1 = k then 1 else 0) + countKey k rest

theorem mapLookup_erase_self {κ α : Type} [DecidableEq κ] (k : κ)
    (l : List (κ × α)) : mapLookup k (mapErase k l) = none := by
  induction l with
  | nil => rfl
  | cons e rest ih =>
    by_cases h : e.1 = k <;> simp [mapErase, mapLookup, h, ih]

theorem mapLookup_erase_ne {κ α : Type} [DecidableEq κ] {k k' : κ}
    (l : List (κ × α)) (h : k' ≠ k) :
    mapLookup k' (mapErase k l) = mapLookup k' l := by
  induction l with
  | nil => rfl
  | cons e rest ih =>
    by_cases he : e.1 = k
    · have hk : k ≠ k' := fun hc => h hc.symm
      simp [mapErase, mapLookup, he, hk, ih]
    · simp [mapErase, mapLookup, he, ih]

theorem mapLookup_insert_self {κ α : Type} [DecidableEq κ] (k : κ) (v : α)
    (l : List (κ × α)) : mapLookup k (mapInsert k v l) = some v := by
  simp [mapInsert, mapLookup]

theorem mapLookup_insert_ne {κ α : Type} [DecidableEq κ] {k k' : κ} (v : α)
    (l : List (κ × α)) (h : k' ≠ k) :
    mapLookup k' (mapInsert k v l) = mapLookup k' l := by
  have : k ≠ k' := fun hc => h hc.symm
  simp [mapInsert, mapLookup, this, mapLookup_erase_ne l h]

theorem mapErase_erase_self {κ α : Type} [DecidableEq κ] (k : κ)
    (l : List (κ × α)) : mapErase k (mapErase k l) = mapErase k l := by
  induction l with
  | nil => rfl
  | cons e rest ih =>
    by_cases h : e.1 = k <;> simp [mapErase, h, ih]

theorem mapErase_of_lookup_none {κ α : Type} [DecidableEq κ] {k : κ}
    {l : List (κ × α)} (h : mapLookup k l = none) : mapErase k l = l := by
  induction l with
  | nil => rfl
  | cons e rest ih =>
    by_cases he : e.1 = k
    · simp [mapLookup, he] at h
    · simp [mapLookup, he] at h
      simp [mapErase, he, ih h]

theorem countKey_erase_self {κ α : Type} [DecidableEq κ] (k : κ)
    (l : List (κ × α)) : countKey k (mapErase k l) = 0 := by
  induction l with
  | nil => rfl
  | cons e rest ih =>
    by_cases h : e.1 = k <;> simp [mapErase, countKey, h, ih]

theorem countKey_insert_self {κ α : Type} [DecidableEq κ] (k : κ) (v : α)
    (l : List (κ × α)) : countKey k (mapInsert k v l) = 1 := by
  simp [mapInsert, countKey, countKey_erase_self]

/-- `models.Follow` (src/models/user.go): one directed follow edge. -/
structure Follow where
  FollowerID : Int
  FollowingID : Int
  CreatedAt : Int
deriving DecidableEq

/-- State of `InMemoryFollowRepository` (src/repository/follow_repository.go):
the edge map keyed by the ordered pair (in Go, by the string
`"followerID:followingID"`, an injective encoding of the pair), the reverse
index `userFollowers` and the forward index `userFollowing`. -/
structure FollowRepo where
  follows : List ((Int × Int) × Follow)
  userFollowers : Int → Int → Bool
  userFollowing : Int → Int → Bool

/-- `NewInMemoryFollowRepository`: all maps empty. -/
def emptyFollowRepo : FollowRepo :=
  { follows := [], userFollowers := fun _ _ => false, userFollowing := fun _ _ => false }

/-- `InMemoryFollowRepository.Create`: stores the edge under its key and sets
both index bits; never returns an error. -/
def followCreate (r : FollowRepo) (follow : Follow) : FollowRepo × Option String :=
  ({ follows := mapInsert (follow.FollowerID, follow.FollowingID) follow r.follows,
     userFollowers := fun userID fid =>
       if userID = follow.FollowingID ∧ fid = follow.FollowerID then true
       else r.userFollowers userID fid,
     userFollowing := fun userID gid =>
       if userID = follow.FollowerID ∧ gid = follow.FollowingID then true
       else r.userFollowing userID gid },
   none)

/-- `InMemoryFollowRepository.Delete`: errors if the edge is absent, otherwise
removes the edge and clears both index bits (the Go code guards the inner
`delete` by a `nil` check; on a `nil` inner map the bit is already false, so
the unconditional bit clear is observationally identical). -/
def followDelete (r : FollowRepo) (followerID followingID : Int) :
    FollowRepo × Option String :=
  match mapLookup (followerID, followingID) r.follows with
  | none => (r, some "follow relationship not found")
  | some _ =>
    ({ follows := mapErase (followerID, followingID) r.follows,
       userFollowers := fun userID fid =>
         if userID = followingID ∧ fid = followerID then false
         else r.userFollowers userID fid,
       userFollowing := fun userID gid =>
         if userID = followerID ∧ gid = followingID then false
         else r.userFollowing userID gid },
     none)

/-- `InMemoryFollowRepository.Exists`: key lookup in the edge map. -/
def followExists (r : FollowRepo) (followerID followingID : Int) : Bool :=
  (mapLookup (followerID, followingID) r.follows).isSome

/-- Membership in the result of `InMemoryFollowRepository.GetFollowers userID`
(the result lists exactly the keys of the inner map `userFollowers[userID]`,
in unspecified order, so membership is the index bit). -/
def followersMem (r : FollowRepo) (userID followerID : Int) : Bool :=
  r.userFollowers userID followerID

/-- Membership in the result of `InMemoryFollowRepository.GetFollowing userID`. -/
def followingMem (r : FollowRepo) (userID followingID : Int) : Bool :=
  r.userFollowing userID followingID

/-- `FollowService.Follow` (services/follow_service.go): ids required, no
self-follow, both users must exist (`userRepo.GetByID` modelled by the
existence predicate `users`), no duplicate edge, then `Create`. -/
def followServiceFollow (users : Int → Bool) (r : FollowRepo)
    (followerID followingID now : Int) : FollowRepo × Option String :=
  if followerID = 0 ∨ followingID = 0 then
    (r, some "follower_id and following user ID are required")
  else if followerID = followingID then
    (r, some "cannot follow yourself")
  else if users followerID = false then
    (r, some "follower user not found")
  else if users followingID = false then
    (r, some "following user not found")
  else if followExists r followerID followingID then
    (r, some "already following this user")
  else
    followCreate r { FollowerID := followerID, FollowingID := followingID, CreatedAt := now }

/-- `FollowService.Unfollow`: ids required, then repository `Delete`. -/
def followServiceUnfollow (r : FollowRepo) (followerID followingID : Int) :
    FollowRepo × Option String :=
  if followerID = 0 ∨ followingID = 0 then
    (r, some "follower_id and following user ID are required")
  else
    followDelete r followerID followingID

/-- One completed mutation of the follow store: repository-level `Create` /
`Delete` or service-level `Follow` / `Unfollow` (successful or failed). -/
inductive FollowOp where
  | create (f : Follow)
  | delete (followerID followingID : Int)
  | follow (followerID followingID now : Int)
  | unfollow (followerID followingID : Int)

/-- State after one completed mutation (failed mutations leave the state). -/
def applyFollowOp (users : Int → Bool) (r : FollowRepo) : FollowOp → FollowRepo
  | .create f => (followCreate r f).1
  | .delete u v => (followDelete r u v).1
  | .follow u v t => (followServiceFollow users r u v t).1
  | .unfollow u v => (followServiceUnfollow r u v).1

/-- State after a whole history of mutations, starting from the fresh store. -/
def runFollowOps (users : Int → Bool) (ops : List FollowOp) : FollowRepo :=
  ops.foldl (applyFollowOp users) emptyFollowRepo

/-- The bidirectional index invariant of §4.1:
`v ∈ Following(u) ⟺ u ∈ Followers(v) ⟺ Exists(u,v)`. -/
def Consistent (r : FollowRepo) : Prop :=
  ∀ u v : Int,
    (followingMem r u v = true ↔ followExists r u v = true) ∧
    (followersMem r v u = true ↔ followExists r u v = true)

theorem consistent_empty : Consistent emptyFollowRepo := by
  intro u v
  constructor <;>
    simp [followingMem, followersMem, followExists, emptyFollowRepo, mapLookup]

theorem followExists_create (r : FollowRepo) (f : Follow) (u v : Int) :
    followExists (followCreate r f).1 u v =
      if u = f.FollowerID ∧ v = f.FollowingID then true else followExists r u v := by
  by_cases h : u = f.FollowerID ∧ v = f.FollowingID
  · obtain ⟨h1, h2⟩ := h
    subst h1; subst h2
    simp [followExists, followCreate, mapLookup_insert_self]
  · have hk : (u, v) ≠ (f.FollowerID, f.FollowingID) := by
      intro hc
      exact h ⟨congrArg Prod.fst hc, congrArg Prod.snd hc⟩
    simp [followExists, followCreate, mapLookup_insert_ne _ _ hk, h]

theorem consistent_create (r : FollowRepo) (f : Follow)
    (h : Consistent r) : Consistent (followCreate r f).1 := by
  intro u v
  rw [followExists_create]
  by_cases hk : u = f.FollowerID ∧ v = f.FollowingID
  · obtain ⟨h1, h2⟩ := hk
    subst h1; subst h2
    constructor <;> simp [followingMem, followersMem, followCreate]
  · have h1 : ¬(u = f.FollowerID ∧ v = f.FollowingID) := hk
    have h2 : ¬(v = f.FollowingID ∧ u = f.FollowerID) := fun hc => hk ⟨hc.2, hc.1⟩
    constructor
    · simp only [followingMem, followCreate, if_neg h1]
      simpa [followingMem, h1] using (h u v).1
    · simp only [followersMem, followCreate, if_neg h2]
      simpa [followersMem, h1] using (h u v).2

theorem consistent_delete (r : FollowRepo) (fid gid : Int)
    (h : Consistent r) : Consistent (followDelete r fid gid).1 := by
  intro u v
  cases hlk : mapLookup (fid, gid) r.follows with
  | none => simpa [followDelete, hlk] using h u v
  | some f =>
    by_cases hk : u = fid ∧ v = gid
    · obtain ⟨h1, h2⟩ := hk
      subst h1; subst h2
      constructor <;>
        simp [followDelete, hlk, followingMem, followersMem, followExists,
          mapLookup_erase_self]
    · have h1 : ¬(u = fid ∧ v = gid) := hk
      have h2 : ¬(v = gid ∧ u = fid) := fun hc => hk ⟨hc.2, hc.1⟩
      have hk' : (u, v) ≠ (fid, gid) := by
        intro hc
        exact hk ⟨congrArg Prod.fst hc, congrArg Prod.snd hc⟩
      have hst : (followDelete r fid gid).1 =
          { follows := mapErase (fid, gid) r.follows,
            userFollowers := fun userID fid2 =>
              if userID = gid ∧ fid2 = fid then false
              else r.userFollowers userID fid2,
            userFollowing := fun userID gid2 =>
              if userID = fid ∧ gid2 = gid then false
              else r.userFollowing userID gid2 } := by
        simp [followDelete, hlk]
      constructor
      · simp only [hst, followingMem, followExists, if_neg h1,
          mapLookup_erase_ne _ hk']
        exact (h u v).1
      · simp only [hst, followersMem, followExists, if_neg h2,
          mapLookup_erase_ne _ hk']
        exact (h u v).2

theorem consistent_svc_follow (users : Int → Bool) (r : FollowRepo)
    (u v t : Int) (h : Consistent r) :
    Consistent (followServiceFollow users r u v t).1 := by
  unfold followServiceFollow
  split
  · exact h
  split
  · exact h
  split
  · exact h
  split
  · exact h
  split
  · exact h
  · exact consistent_create r _ h

theorem consistent_svc_unfollow (r : FollowRepo) (u v : Int) (h : Consistent r) :
    Consistent (followServiceUnfollow r u v).1 := by
  unfold followServiceUnfollow
  split
  · exact h
  · exact consistent_delete r u v h

theorem consistent_apply (users : Int → Bool) (r : FollowRepo) (op : FollowOp)
    (h : Consistent r) : Consistent (applyFollowOp users r op) := by
  cases op with
  | create f => exact consistent_create r f h
  | delete u v => exact consistent_delete r u v h
  | follow u v t => exact consistent_svc_follow users r u v t h
  | unfollow u v => exact consistent_svc_unfollow r u v h

theorem consistent_foldl (users : Int → Bool) (ops : List FollowOp) :
    ∀ r : FollowRepo, Consistent r →
      Consistent (ops.foldl (applyFollowOp users) r) := by
  induction ops with
  | nil => exact fun r h => h
  | cons op rest ih =>
    intro r h
    exact ih (applyFollowOp users r op) (consistent_apply users r op h)

/-- C1: after every completed follow-store mutation (successful or failed
repository `Create`/`Delete` or service `Follow`/`Unfollow`, starting from
the fresh store), for all users `u`, `v`: `v ∈ Following(u)` iff
`u ∈ Followers(v)` iff `Exists(u,v)` — the forward index, reverse index and
edge map stay mutually consistent. -/
theorem c1_follow_indices_mutually_consistent (users : Int → Bool)
    (ops : List FollowOp) (u v : Int) :
    (followingMem (runFollowOps users ops) u v = true ↔
      followExists (runFollowOps users ops) u v = true) ∧
    (followersMem (runFollowOps users ops) v u = true ↔
      followExists (runFollowOps users ops) u v = true) :=
  consistent_foldl users ops emptyFollowRepo consistent_empty u v

/-- C2: `FollowService.Follow` evaluates its preconditions in the order
missing-id, self-follow, follower existence, following existence, duplicate
edge, and returns the error message of the first violated precondition (and
no error when all hold). -/
theorem c2_follow_precondition_order (users : Int → Bool) (r : FollowRepo)
    (u v t : Int) :
    (u = 0 ∨ v = 0 →
      (followServiceFollow users r u v t).2 =
        some "follower_id and following user ID are required") ∧
    (u ≠ 0 → v ≠ 0 → u = v →
      (followServiceFollow users r u v t).2 = some "cannot follow yourself") ∧
    (u ≠ 0 → v ≠ 0 → u ≠ v → users u = false →
      (followServiceFollow users r u v t).2 = some "follower user not found") ∧
    (u ≠ 0 → v ≠ 0 → u ≠ v → users u = true → users v = false →
      (followServiceFollow users r u v t).2 = some "following user not found") ∧
    (u ≠ 0 → v ≠ 0 → u ≠ v → users u = true → users v = true →
      followExists r u v = true →
      (followServiceFollow users r u v t).2 =
        some "already following this user") ∧
    (u ≠ 0 → v ≠ 0 → u ≠ v → users u = true → users v = true →
      followExists r u v = false →
      (followServiceFollow users r u v t).2 = none) := by
  refine ⟨?_, ?_, ?_, ?_, ?_, ?_⟩
  · intro h
    simp [followServiceFollow, h]
  · intro h1 h2 h3
    simp [followServiceFollow, h1, h2, h3]
  · intro h1 h2 h3 h4
    simp [followServiceFollow, h1, h2, h3, h4]
  · intro h1 h2 h3 h4 h5
    simp [followServiceFollow, h1, h2, h3, h4, h5]
  · intro h1 h2 h3 h4 h5 h6
    simp [followServiceFollow, h1, h2, h3, h4, h5, h6]
  · intro h1 h2 h3 h4 h5 h6
    simp [followServiceFollow, followCreate, h1, h2, h3, h4, h5, h6]

/-- Existence predicate used by the witnesses: users 1 and 2 exist. -/
def twoUsers : Int → Bool := fun i => decide (i = 1 ∨ i = 2)

/-- Witness for C2: `Follow(5,5)` (user 5 does not exist) fails with the
self-follow error, and `Follow(0,0)` fails with the missing-id error. -/
theorem c2_follow_precondition_order_witness :
    (followServiceFollow twoUsers emptyFollowRepo 5 5 0).2 =
      some "cannot follow yourself" ∧
    (followServiceFollow twoUsers emptyFollowRepo 0 0 0).2 =
      some "follower_id and following user ID are required" :=
  ⟨(c2_follow_precondition_order twoUsers emptyFollowRepo 5 5 0).2.1
      (by decide) (by decide) rfl,
   (c2_follow_precondition_order twoUsers emptyFollowRepo 0 0 0).1 (Or.inl rfl)⟩

/-- C3: after a successful `Follow(u,v)` between distinct existing users, a
second `Follow(u,v)` fails with the conflict error and leaves the state
untouched; afterwards `Exists(u,v)` holds and the edge map holds exactly one
entry for the ordered pair `(u,v)`. -/
theorem c3_duplicate_follow_conflict (users : Int → Bool) (r : FollowRepo)
    (u v t t2 : Int) (hu0 : u ≠ 0) (hv0 : v ≠ 0) (hne : u ≠ v)
    (hu : users u = true) (hv : users v = true)
    (hsucc : (followServiceFollow users r u v t).2 = none) :
    (followServiceFollow users (followServiceFollow users r u v t).1 u v t2).2 =
      some "already following this user" ∧
    (followServiceFollow users (followServiceFollow users r u v t).1 u v t2).1 =
      (followServiceFollow users r u v t).1 ∧
    followExists (followServiceFollow users r u v t).1 u v = true ∧
    countKey (u, v) (followServiceFollow users r u v t).1.follows = 1 := by
  have hex : followExists r u v = false := by
    by_cases hex : followExists r u v = true
    · exfalso
      have : (followServiceFollow users r u v t).2 =
          some "already following this user" := by
        simp [followServiceFollow, hu0, hv0, hne, hu, hv, hex]
      rw [this] at hsucc
      exact Option.noConfusion hsucc
    · simpa using hex
  have hr1 : (followServiceFollow users r u v t).1 =
      (followCreate r { FollowerID := u, FollowingID := v, CreatedAt := t }).1 := by
    simp [followServiceFollow, hu0, hv0, hne, hu, hv, hex]
  have hex1 : followExists
      (followCreate r { FollowerID := u, FollowingID := v, CreatedAt := t }).1
      u v = true := by
    rw [followExists_create]
    simp
  refine ⟨?_, ?_, ?_, ?_⟩
  · rw [hr1]
    simp [followServiceFollow, hu0, hv0, hne, hu, hv, hex1]
  · rw [hr1]
    simp [followServiceFollow, hu0, hv0, hne, hu, hv, hex1]
  · rw [hr1]
    exact hex1
  · rw [hr1]
    exact countKey_insert_self (u, v) _ r.follows

/-- Witness for C3 at users 1 and 2 in the empty store. -/
theorem c3_duplicate_follow_conflict_witness :
    (followServiceFollow twoUsers emptyFollowRepo 1 2 0).2 = none ∧
    ((followServiceFollow twoUsers
        (followServiceFollow twoUsers emptyFollowRepo 1 2 0).1 1 2 7).2 =
      some "already following this user" ∧
    countKey ((1 : Int), (2 : Int))
      (followServiceFollow twoUsers emptyFollowRepo 1 2 0).1.follows = 1) := by
  have hsucc : (followServiceFollow twoUsers emptyFollowRepo 1 2 0).2 = none := by
    decide
  have h := c3_duplicate_follow_conflict twoUsers emptyFollowRepo 1 2 0 7
    (by decide) (by decide) (by decide) (by decide) (by decide) hsucc
  exact ⟨hsucc, h.1, h.2.2.2⟩

/-- C4: `InMemoryFollowRepository.Delete(u,v)` on a missing edge returns the
not-found error and returns before touching any state: the edge map, the
reverse index and the forward index are exactly as before the call. -/
theorem c4_delete_missing_edge_atomic (r : FollowRepo) (u v : Int)
    (h : followExists r u v = false) :
    (followDelete r u v).2 = some "follow relationship not found" ∧
    (followDelete r u v).1 = r := by
  have hlk : mapLookup (u, v) r.follows = none := by
    cases hc : mapLookup (u, v) r.follows with
    | none => rfl
    | some f =>
      exfalso
      rw [followExists, hc] at h
      exact Bool.noConfusion h
  exact ⟨by simp [followDelete, hlk], by simp [followDelete, hlk]⟩

/-- Witness for C4: deleting the absent edge `(1,2)` from the fresh store. -/
theorem c4_delete_missing_edge_atomic_witness :
    followExists emptyFollowRepo 1 2 = false ∧
    (followDelete emptyFollowRepo 1 2).2 = some "follow relationship not found" ∧
    (followDelete emptyFollowRepo 1 2).1 = emptyFollowRepo := by
  have h : followExists emptyFollowRepo 1 2 = false := rfl
  have hc := c4_delete_missing_edge_atomic emptyFollowRepo 1 2 h
  exact ⟨h, hc.1, hc.2⟩

/-- C5: in a consistent state with no `(u,v)` edge, `Create(u,v)` followed by
`Delete(u,v)` succeeds and restores the observable follow state exactly:
`Following(u)`, `Followers(v)` and `Exists(u,v)` regain their prior values. -/
theorem c5_create_delete_round_trip (r : FollowRepo) (u v t : Int)
    (hc : Consistent r) (h : followExists r u v = false) :
    (followDelete
        (followCreate r { FollowerID := u, FollowingID := v, CreatedAt := t }).1
        u v).2 = none ∧
    (∀ b, followingMem
        (followDelete
          (followCreate r { FollowerID := u, FollowingID := v, CreatedAt := t }).1
          u v).1 u b = followingMem r u b) ∧
    (∀ a, followersMem
        (followDelete
          (followCreate r { FollowerID := u, FollowingID := v, CreatedAt := t }).1
          u v).1 v a = followersMem r v a) ∧
    followExists
        (followDelete
          (followCreate r { FollowerID := u, FollowingID := v, CreatedAt := t }).1
          u v).1 u v = followExists r u v := by
  have hlk : mapLookup (u, v) r.follows = none := by
    cases hx : mapLookup (u, v) r.follows with
    | none => rfl
    | some f =>
      exfalso
      rw [followExists, hx] at h
      exact Bool.noConfusion h
  have hfg : followingMem r u v = false := by
    cases hb : followingMem r u v with
    | false => rfl
    | true => exact absurd (((hc u v).1).mp hb) (by simp [h])
  have hfr : followersMem r v u = false := by
    cases hb : followersMem r v u with
    | false => rfl
    | true => exact absurd (((hc u v).2).mp hb) (by simp [h])
  have hlk1 : mapLookup (u, v)
      (followCreate r { FollowerID := u, FollowingID := v, CreatedAt := t }).1.follows =
      some { FollowerID := u, FollowingID := v, CreatedAt := t } := by
    simp [followCreate, mapLookup_insert_self]
  refine ⟨?_, ?_, ?_, ?_⟩
  · simp [followDelete, followCreate, mapLookup_insert_self]
  · intro b
    by_cases hb : b = v
    · subst hb
      simpa [followDelete, followCreate, mapLookup_insert_self, followingMem]
        using hfg.symm
    · simp [followDelete, followCreate, mapLookup_insert_self, followingMem, hb]
  · intro a
    by_cases ha : a = u
    · subst ha
      simpa [followDelete, followCreate, mapLookup_insert_self, followersMem]
        using hfr.symm
    · simp [followDelete, followCreate, mapLookup_insert_self, followersMem, ha]
  · have hself : mapErase (u, v)
        (mapInsert (u, v) { FollowerID := u, FollowingID := v, CreatedAt := t }
          r.follows) = r.follows := by
      simp [mapInsert, mapErase, mapErase_erase_self, mapErase_of_lookup_none hlk]
    simp [followDelete, followCreate, followExists, mapLookup_insert_self, hself]

/-- Witness for C5: create then delete edge `(1,2)` on the fresh (consistent)
store; the delete succeeds and the observables at `(1,2)` regain their prior
values. -/
theorem c5_create_delete_round_trip_witness :
    followExists emptyFollowRepo 1 2 = false ∧
    ((followDelete
        (followCreate emptyFollowRepo
          { FollowerID := 1, FollowingID := 2, CreatedAt := 3 }).1 1 2).2 = none ∧
    followingMem
        (followDelete
          (followCreate emptyFollowRepo
            { FollowerID := 1, FollowingID := 2, CreatedAt := 3 }).1 1 2).1 1 2 =
      followingMem emptyFollowRepo 1 2 ∧
    followersMem
        (followDelete
          (followCreate emptyFollowRepo
            { FollowerID := 1, FollowingID := 2, CreatedAt := 3 }).1 1 2).1 2 1 =
      followersMem emptyFollowRepo 2 1 ∧
    followExists
        (followDelete
          (followCreate emptyFollowRepo
            { FollowerID := 1, FollowingID := 2, CreatedAt := 3 }).1 1 2).1 1 2 =
      followExists emptyFollowRepo 1 2) := by
  have h : followExists emptyFollowRepo 1 2 = false := rfl
  have hc := c5_create_delete_round_trip emptyFollowRepo 1 2 3 consistent_empty h
  exact ⟨h, hc.1, hc.2.1 2, hc.2.2.1 1, hc.2.2.2⟩

/-- C10: the repository-level `Create` performs no duplicate check: called
twice with the same edge it returns `nil` both times, the second call
overwrites the first map entry and re-sets the same index bits, leaving the
state of the first call and exactly one entry for the ordered pair. -/
theorem c10_repo_create_idempotent (r : FollowRepo) (f : Follow) :
    (followCreate r f).2 = none ∧
    (followCreate (followCreate r f).1 f).2 = none ∧
    (followCreate (followCreate r f).1 f).1 = (followCreate r f).1 ∧
    countKey (f.FollowerID, f.FollowingID)
      (followCreate (followCreate r f).1 f).1.follows = 1 := by
  refine ⟨rfl, rfl, ?_, ?_⟩
  · show FollowRepo.mk _ _ _ = FollowRepo.mk _ _ _
    congr 1
    · show mapInsert (f.FollowerID, f.FollowingID) f
          (mapInsert (f.FollowerID, f.FollowingID) f r.follows) =
        mapInsert (f.FollowerID, f.FollowingID) f r.follows
      simp [mapInsert, mapErase, mapErase_erase_self]
    · funext userID fid
      by_cases h : userID = f.FollowingID ∧ fid = f.FollowerID <;>
        simp [followCreate, h]
    · funext userID gid
      by_cases h : userID = f.FollowerID ∧ gid = f.FollowingID <;>
        simp [followCreate, h]
  · exact countKey_insert_self _ _ _

/-- `models.Post` (src/models/post.go). -/
structure Post where
  ID : Int
  UserID : Int
  Content : String
  CreatedAt : Int
  UpdatedAt : Int
deriving DecidableEq

/-- Two's-complement wraparound of Go's 64-bit `int`: the value of `n`
reduced into `[-2^63, 2^63)`. Go's `nextPostID++` is addition in this
wrapped arithmetic (Go integer overflow wraps; it is not an error), so the
id counter is modelled with an explicit wrap at the word size rather than as
an unbounded integer. -/
def wrap64 (n : Int) : Int :=
  (n + 9223372036854775808) % 18446744073709551616 - 9223372036854775808

/-- State of `InMemoryPostRepository` (the in-memory `PostRepository`):
primary post map keyed by post id, per-user index slices of post ids (a
missing key reads as the empty slice), and the id counter (a Go `int`,
i.e. a 64-bit value; ids themselves are only ever compared, never
arithmetically modified, so their `Int` model is exact). -/
structure PostRepo where
  posts : List (Int × Post)
  userPosts : Int → List Int
  nextPostID : Int

/-- `NewInMemoryPostRepository`: empty maps, counter starts at 1. -/
def emptyPostRepo : PostRepo :=
  { posts := [], userPosts := fun _ => [], nextPostID := 1 }

/-- `InMemoryPostRepository.Create`: stores the post under `post.ID`, appends
the id to the author's slice and increments the counter (`nextPostID++`,
which wraps at the 64-bit word size); never errors. -/
def postRepoCreate (r : PostRepo) (post : Post) : PostRepo × Option String :=
  ({ posts := mapInsert post.ID post r.posts,
     userPosts := fun userID =>
       if userID = post.UserID then r.userPosts userID ++ [post.ID]
       else r.userPosts userID,
     nextPostID := wrap64 (r.nextPostID + 1) },
   none)

/-- `InMemoryPostRepository.Update`: errors if `post.ID` is unknown, else
replaces the stored post; the author index and the counter are untouched. -/
def postRepoUpdate (r : PostRepo) (post : Post) : PostRepo × Option String :=
  match mapLookup post.ID r.posts with
  | none => (r, some "post not found")
  | some _ => ({ r with posts := mapInsert post.ID post r.posts }, none)

/-- Removal of the first occurrence of `x`, as the Go loop with `break`. -/
def removeFirst (x : Int) : List Int → List Int
  | [] => []
  | y :: ys => if y = x then ys else y :: removeFirst x ys

/-- `InMemoryPostRepository.Delete`: errors if the id is unknown, else removes
the post from the primary map and its id from the author's slice. -/
def postRepoDelete (r : PostRepo) (postID : Int) : PostRepo × Option String :=
  match mapLookup postID r.posts with
  | none => (r, some "post not found")
  | some post =>
    ({ posts := mapErase postID r.posts,
       userPosts := fun userID =>
         if userID = post.UserID then removeFirst postID (r.userPosts userID)
         else r.userPosts userID,
       nextPostID := r.nextPostID },
     none)

/-- The `sort.Slice` comparator of `GetByUserID`/`GetByUserIDs`:
`posts[i].CreatedAt.After(posts[j].CreatedAt)`, i.e. descending creation
time; the resulting order is characterised by its non-strict complement. -/
def byCreatedAtDesc (a b : Post) : Bool :=
  decide (b.CreatedAt ≤ a.CreatedAt)

/-- The collection loop of `InMemoryPostRepository.GetByUserIDs`: for every
requested author, every id in the author's slice that resolves in the
primary map contributes its post. -/
def collectPosts (r : PostRepo) (userIDs : List Int) : List Post :=
  userIDs.flatMap fun userID =>
    (r.userPosts userID).filterMap fun postID => mapLookup postID r.posts

/-- `InMemoryPostRepository.GetByUserIDs`: collect, then sort by `CreatedAt`
descending. -/
def postRepoGetByUserIDs (r : PostRepo) (userIDs : List Int) : List Post :=
  (collectPosts r userIDs).mergeSort byCreatedAtDesc

/-- Every stored entry's value carries its own key as `ID` (Go stores each
post under `post.ID`). -/
def PostsKeyConsistent (r : PostRepo) : Prop :=
  ∀ (pid : Int) (p : Post), mapLookup pid r.posts = some p → p.ID = pid

/-- Every id in an author's index slice resolves to a post of that author. -/
def UserPostsSound (r : PostRepo) : Prop :=
  ∀ (u pid : Int) (p : Post),
    pid ∈ r.userPosts u → mapLookup pid r.posts = some p → p.UserID = u

/-- Every stored post's id appears in its author's index slice. -/
def UserPostsComplete (r : PostRepo) : Prop :=
  ∀ (pid : Int) (p : Post),
    mapLookup pid r.posts = some p → pid ∈ r.userPosts p.UserID

/-- The well-formedness invariant tying the primary map to the author index. -/
def PostRepoWF (r : PostRepo) : Prop :=
  PostsKeyConsistent r ∧ UserPostsSound r ∧ UserPostsComplete r

/-- C6: on a well-formed store, `GetByUserIDs` returns exactly the stored
posts whose author id is in the requested list, sorted by `CreatedAt`
descending (each post is created no earlier than the one that follows it). -/
theorem c6_get_by_user_ids_exact_and_sorted (r : PostRepo) (hwf : PostRepoWF r)
    (userIDs : List Int) :
    (∀ p : Post, p ∈ postRepoGetByUserIDs r userIDs ↔
      (mapLookup p.ID r.posts = some p ∧ p.UserID ∈ userIDs)) ∧
    (postRepoGetByUserIDs r userIDs).Pairwise
      (fun a b => b.CreatedAt ≤ a.CreatedAt) := by
  obtain ⟨h0, h1, h2⟩ := hwf
  constructor
  · intro p
    rw [postRepoGetByUserIDs, List.mem_mergeSort, collectPosts]
    constructor
    · intro hp
      rw [List.mem_flatMap] at hp
      obtain ⟨u, hu, hp⟩ := hp
      rw [List.mem_filterMap] at hp
      obtain ⟨pid, hpid, hlk⟩ := hp
      have hid : p.ID = pid := h0 pid p hlk
      have huid : p.UserID = u := h1 u pid p hpid hlk
      rw [hid, huid]
      exact ⟨hlk, hu⟩
    · intro hp
      obtain ⟨hlk, hu⟩ := hp
      rw [List.mem_flatMap]
      exact ⟨p.UserID, hu, List.mem_filterMap.mpr ⟨p.ID, h2 p.ID p hlk, hlk⟩⟩
  · rw [postRepoGetByUserIDs]
    have htrans : ∀ a b c : Post,
        byCreatedAtDesc a b → byCreatedAtDesc b c → byCreatedAtDesc a c := by
      intro a b c hab hbc
      simp only [byCreatedAtDesc, decide_eq_true_eq] at hab hbc ⊢
      omega
    have htotal : ∀ a b : Post, byCreatedAtDesc a b || byCreatedAtDesc b a := by
      intro a b
      simp only [byCreatedAtDesc, Bool.or_eq_true, decide_eq_true_eq]
      omega
    have hs := List.sorted_mergeSort htrans htotal (collectPosts r userIDs)
    refine List.Pairwise.imp ?_ hs
    intro a b hab
    simpa [byCreatedAtDesc] using hab

/-- Two stored posts used by the post-side witnesses. -/
def wPost1 : Post :=
  { ID := 1, UserID := 1, Content := "A", CreatedAt := 10, UpdatedAt := 10 }

/-- Second stored post used by the post-side witnesses. -/
def wPost2 : Post :=
  { ID := 2, UserID := 2, Content := "B", CreatedAt := 20, UpdatedAt := 20 }

/-- A small concrete post store holding `wPost1` and `wPost2`. -/
def wPostRepo : PostRepo :=
  { posts := [(1, wPost1), (2, wPost2)],
    userPosts := fun u => if u = 1 then [1] else if u = 2 then [2] else [],
    nextPostID := 3 }

theorem wPostRepo_wf : PostRepoWF wPostRepo := by
  refine ⟨?_, ?_, ?_⟩
  · intro pid p h
    by_cases h1 : pid = 1
    · subst h1
      simp [wPostRepo, mapLookup] at h
      rw [← h]
      rfl
    · by_cases h2 : pid = 2
      · subst h2
        simp [wPostRepo, mapLookup] at h
        rw [← h]
        rfl
      · have hs1 : (1 : Int) ≠ pid := fun hc => h1 hc.symm
        have hs2 : (2 : Int) ≠ pid := fun hc => h2 hc.symm
        simp [wPostRepo, mapLookup, hs1, hs2] at h
  · intro u pid p hm hlk
    by_cases hu1 : u = 1
    · subst hu1
      simp [wPostRepo] at hm
      subst hm
      simp [wPostRepo, mapLookup] at hlk
      rw [← hlk]
      rfl
    · by_cases hu2 : u = 2
      · subst hu2
        simp [wPostRepo, hu1] at hm
        subst hm
        simp [wPostRepo, mapLookup] at hlk
        rw [← hlk]
        rfl
      · simp [wPostRepo, hu1, hu2] at hm
  · intro pid p hlk
    by_cases h1 : pid = 1
    · subst h1
      simp [wPostRepo, mapLookup] at hlk
      rw [← hlk]
      simp [wPostRepo, wPost1]
    · by_cases h2 : pid = 2
      · subst h2
        simp [wPostRepo, mapLookup] at hlk
        rw [← hlk]
        simp [wPostRepo, wPost2]
      · have hs1 : (1 : Int) ≠ pid := fun hc => h1 hc.symm
        have hs2 : (2 : Int) ≠ pid := fun hc => h2 hc.symm
        simp [wPostRepo, mapLookup, hs1, hs2] at hlk

/-- Witness for C6 on the concrete two-post store. -/
theorem c6_get_by_user_ids_exact_and_sorted_witness :
    PostRepoWF wPostRepo ∧
    ((wPost1 ∈ postRepoGetByUserIDs wPostRepo [1, 2] ↔
      (mapLookup wPost1.ID wPostRepo.posts = some wPost1 ∧
        wPost1.UserID ∈ [(1 : Int), 2])) ∧
    (postRepoGetByUserIDs wPostRepo [1, 2]).Pairwise
      (fun a b => b.CreatedAt ≤ a.CreatedAt)) :=
  ⟨wPostRepo_wf,
   (c6_get_by_user_ids_exact_and_sorted wPostRepo wPostRepo_wf [1, 2]).1 wPost1,
   (c6_get_by_user_ids_exact_and_sorted wPostRepo wPostRepo_wf [1, 2]).2⟩

/-- The services-package constant `MaxPostContentLength` (referenced by the
post handler; its value 300 is pinned by the service tests' expected message
"content must be 300 characters or less"). -/
def MaxPostContentLength : Nat := 300

/-- Modelled from the spec: the `ValidationPolicy` content check of
`PostService` (the service source is absent from the repository snapshot;
only its tests and handlers are present). Per §4.4 it fails with
"content is required" on the empty string and with
"content must be 300 characters or less" when the length exceeds 300
length units, and accepts otherwise. -/
def validateContent (s : String) : Option String :=
  if s = "" then some "content is required"
  else if s.length > MaxPostContentLength then
    some "content must be 300 characters or less"
  else none

/-- Modelled from the spec: `PostService.CreatePost` (source absent from the
snapshot). Per §4.2 and the service tests it requires a nonzero `user_id`,
validates the content, requires the author to exist, then assigns the fresh
id `GetNextPostID()` and stores via the repository `Create`. -/
def postServiceCreatePost (users : Int → Bool) (r : PostRepo)
    (userID : Int) (content : String) (now : Int) : PostRepo × Option String :=
  if userID = 0 then (r, some "user_id is required")
  else if users userID = false then (r, some "user not found")
  else
    match validateContent content with
    | some e => (r, some e)
    | none =>
      postRepoCreate r
        { ID := r.nextPostID, UserID := userID, Content := content,
          CreatedAt := now, UpdatedAt := now }

/-- Modelled from the spec: `PostService.UpdatePost` (source absent from the
snapshot). Per §4.2 it fails "post not found" on an unknown id, fails
"unauthorized to update this post" when the actor is not the author,
re-validates the content, and stores the fetched post with only `Content`
and `UpdatedAt` replaced. -/
def postServiceUpdatePost (r : PostRepo) (postID actingUserID : Int)
    (content : String) (now : Int) : PostRepo × Option String :=
  match mapLookup postID r.posts with
  | none => (r, some "post not found")
  | some post =>
    if actingUserID = post.UserID then
      match validateContent content with
      | some e => (r, some e)
      | none => postRepoUpdate r { post with Content := content, UpdatedAt := now }
    else (r, some "unauthorized to update this post")

/-- C7: a successful `UpdatePost` replaces only the target post's `Content`
and `UpdatedAt` (keeping its `UserID` and `CreatedAt`), leaves every other
stored post unchanged, and touches neither the author index nor the id
counter. -/
theorem c7_update_only_content_and_updated_at (r : PostRepo)
    (postID actingUserID : Int) (content : String) (now : Int) (pOld : Post)
    (h0 : PostsKeyConsistent r)
    (hlk : mapLookup postID r.posts = some pOld)
    (hsucc : (postServiceUpdatePost r postID actingUserID content now).2 = none) :
    mapLookup postID
        (postServiceUpdatePost r postID actingUserID content now).1.posts =
      some { pOld with Content := content, UpdatedAt := now } ∧
    (∀ q : Int, q ≠ postID →
      mapLookup q
          (postServiceUpdatePost r postID actingUserID content now).1.posts =
        mapLookup q r.posts) ∧
    (postServiceUpdatePost r postID actingUserID content now).1.userPosts =
      r.userPosts ∧
    (postServiceUpdatePost r postID actingUserID content now).1.nextPostID =
      r.nextPostID := by
  have hid : pOld.ID = postID := h0 postID pOld hlk
  have hact : actingUserID = pOld.UserID := by
    by_contra hact
    have hbad : (postServiceUpdatePost r postID actingUserID content now).2 =
        some "unauthorized to update this post" := by
      simp [postServiceUpdatePost, hlk, hact]
    rw [hbad] at hsucc
    exact Option.noConfusion hsucc
  have hval : validateContent content = none := by
    cases hv : validateContent content with
    | none => rfl
    | some e =>
      have hbad : (postServiceUpdatePost r postID actingUserID content now).2 =
          some e := by
        simp [postServiceUpdatePost, hlk, hact, hv]
      rw [hbad] at hsucc
      exact Option.noConfusion hsucc
  have hres : (postServiceUpdatePost r postID actingUserID content now).1 =
      { r with
        posts :=
          mapInsert postID ({ pOld with Content := content, UpdatedAt := now })
            r.posts } := by
    simp [postServiceUpdatePost, hlk, hact, hval, postRepoUpdate, hid]
  refine ⟨?_, ?_, ?_, ?_⟩
  · rw [hres]
    exact mapLookup_insert_self _ _ _
  · intro q hq
    rw [hres]
    exact mapLookup_insert_ne _ _ hq
  · rw [hres]
  · rw [hres]

/-- Witness for C7: user 1 successfully rewrites the content of post 1 in the
concrete two-post store. -/
theorem c7_update_only_content_and_updated_at_witness :
    (PostsKeyConsistent wPostRepo ∧
      mapLookup 1 wPostRepo.posts = some wPost1 ∧
      (postServiceUpdatePost wPostRepo 1 1 "C" 99).2 = none) ∧
    (mapLookup 1 (postServiceUpdatePost wPostRepo 1 1 "C" 99).1.posts =
      some { wPost1 with Content := "C", UpdatedAt := 99 } ∧
    mapLookup 2 (postServiceUpdatePost wPostRepo 1 1 "C" 99).1.posts =
      mapLookup 2 wPostRepo.posts ∧
    (postServiceUpdatePost wPostRepo 1 1 "C" 99).1.userPosts =
      wPostRepo.userPosts ∧
    (postServiceUpdatePost wPostRepo 1 1 "C" 99).1.nextPostID =
      wPostRepo.nextPostID) := by
  have h0 : PostsKeyConsistent wPostRepo := wPostRepo_wf.1
  have hlk : mapLookup 1 wPostRepo.posts = some wPost1 := rfl
  have hsucc : (postServiceUpdatePost wPostRepo 1 1 "C" 99).2 = none := by decide
  have hc := c7_update_only_content_and_updated_at wPostRepo 1 1 "C" 99 wPost1
    h0 hlk hsucc
  exact ⟨⟨h0, hlk, hsucc⟩, hc.1, hc.2.1 2 (by decide), hc.2.2.1, hc.2.2.2⟩

/-- One post-store mutation: a service-level post creation (which assigns the
fresh id on success) or a repository-level deletion. -/
inductive PostOp where
  | create (userID : Int) (content : String) (now : Int)
  | delete (postID : Int)

/-- State after one post-store mutation. -/
def applyPostOp (users : Int → Bool) (r : PostRepo) : PostOp → PostRepo
  | .create u c t => (postServiceCreatePost users r u c t).1
  | .delete pid => (postRepoDelete r pid).1

/-- The ids assigned by the store over a history of mutations, in order: each
successful creation contributes the `GetNextPostID()` value it stored. -/
def assignedIDs (users : Int → Bool) : PostRepo → List PostOp → List Int
  | _, [] => []
  | r, PostOp.create u c t :: ops =>
    match (postServiceCreatePost users r u c t).2 with
    | none =>
      r.nextPostID ::
        assignedIDs users (postServiceCreatePost users r u c t).1 ops
    | some _ => assignedIDs users (postServiceCreatePost users r u c t).1 ops
  | r, PostOp.delete pid :: ops => assignedIDs users (postRepoDelete r pid).1 ops

theorem createPost_fail_state (users : Int → Bool) (r : PostRepo) (u : Int)
    (c : String) (t : Int)
    (h : (postServiceCreatePost users r u c t).2 ≠ none) :
    (postServiceCreatePost users r u c t).1 = r := by
  by_cases h0 : u = 0
  · simp [postServiceCreatePost, h0]
  by_cases h1 : users u = false
  · simp [postServiceCreatePost, h0, h1]
  cases hv : validateContent c with
  | some e => simp [postServiceCreatePost, h0, h1, hv]
  | none =>
    exfalso
    apply h
    simp [postServiceCreatePost, h0, h1, hv, postRepoCreate]

theorem createPost_success_next (users : Int → Bool) (r : PostRepo) (u : Int)
    (c : String) (t : Int)
    (h : (postServiceCreatePost users r u c t).2 = none) :
    (postServiceCreatePost users r u c t).1.nextPostID =
      wrap64 (r.nextPostID + 1) := by
  by_cases h0 : u = 0
  · simp [postServiceCreatePost, h0] at h
  by_cases h1 : users u = false
  · simp [postServiceCreatePost, h0, h1] at h
  cases hv : validateContent c with
  | some e => simp [postServiceCreatePost, h0, h1, hv] at h
  | none => simp [postServiceCreatePost, h0, h1, hv, postRepoCreate]

theorem deletePost_next (r : PostRepo) (pid : Int) :
    (postRepoDelete r pid).1.nextPostID = r.nextPostID := by
  unfold postRepoDelete
  split
  · rfl
  · rfl

theorem wrap64_eq_self (n : Int) (h0 : -9223372036854775808 ≤ n)
    (h1 : n < 9223372036854775808) : wrap64 n = n := by
  unfold wrap64
  omega

theorem assignedIDs_lower (users : Int → Bool) (ops : List PostOp) :
    ∀ (r : PostRepo) (i : Int), 0 ≤ r.nextPostID →
      r.nextPostID + (ops.length : Int) ≤ 9223372036854775807 →
      i ∈ assignedIDs users r ops → r.nextPostID ≤ i := by
  induction ops with
  | nil =>
    intro r i _ _ h
    simp [assignedIDs] at h
  | cons op rest ih =>
    intro r i h0 hbound h
    rw [List.length_cons] at hbound
    push_cast at hbound
    cases op with
    | create u c t =>
      cases hv : (postServiceCreatePost users r u c t).2 with
      | none =>
        have hnext : (postServiceCreatePost users r u c t).1.nextPostID =
            r.nextPostID + 1 := by
          rw [createPost_success_next users r u c t hv]
          exact wrap64_eq_self _ (by omega) (by omega)
        rw [assignedIDs, hv] at h
        rcases List.mem_cons.mp h with hh | hh
        · exact le_of_eq hh.symm
        · have hb := ih _ i (by rw [hnext]; omega) (by rw [hnext]; omega) hh
          rw [hnext] at hb
          omega
      | some e =>
        rw [assignedIDs, hv] at h
        have hr : (postServiceCreatePost users r u c t).1 = r :=
          createPost_fail_state users r u c t
            (by rw [hv]; exact fun hc => Option.noConfusion hc)
        have hb := ih _ i (by rw [hr]; exact h0) (by rw [hr]; omega) h
        rw [hr] at hb
        exact hb
    | delete pid =>
      rw [assignedIDs] at h
      have hb := ih _ i (by rw [deletePost_next r pid]; exact h0)
        (by rw [deletePost_next r pid]; omega) h
      rw [deletePost_next r pid] at hb
      exact hb

theorem assignedIDs_pairwise (users : Int → Bool) (ops : List PostOp) :
    ∀ r : PostRepo, 0 ≤ r.nextPostID →
      r.nextPostID + (ops.length : Int) ≤ 9223372036854775807 →
      (assignedIDs users r ops).Pairwise (· < ·) := by
  induction ops with
  | nil =>
    intro r _ _
    simp [assignedIDs]
  | cons op rest ih =>
    intro r h0 hbound
    rw [List.length_cons] at hbound
    push_cast at hbound
    cases op with
    | create u c t =>
      cases hv : (postServiceCreatePost users r u c t).2 with
      | none =>
        have hnext : (postServiceCreatePost users r u c t).1.nextPostID =
            r.nextPostID + 1 := by
          rw [createPost_success_next users r u c t hv]
          exact wrap64_eq_self _ (by omega) (by omega)
        rw [assignedIDs, hv]
        refine List.Pairwise.cons ?_
          (ih _ (by rw [hnext]; omega) (by rw [hnext]; omega))
        intro i hi
        have hb := assignedIDs_lower users rest _ i (by rw [hnext]; omega)
          (by rw [hnext]; omega) hi
        rw [hnext] at hb
        omega
      | some e =>
        rw [assignedIDs, hv]
        have hr : (postServiceCreatePost users r u c t).1 = r :=
          createPost_fail_state users r u c t
            (by rw [hv]; exact fun hc => Option.noConfusion hc)
        exact ih _ (by rw [hr]; exact h0) (by rw [hr]; omega)
    | delete pid =>
      rw [assignedIDs]
      exact ih _ (by rw [deletePost_next r pid]; exact h0)
        (by rw [deletePost_next r pid]; omega)

/-- The id sequence produced by `k` consecutive successful creations when the
counter starts at `n`: each creation stores the current counter value and
bumps it with 64-bit wraparound. -/
def idSeq (n : Int) : Nat → List Int
  | 0 => []
  | k + 1 => n :: idSeq (wrap64 (n + 1)) k

theorem assignedIDs_replicate_create (k : Nat) :
    ∀ r : PostRepo,
      assignedIDs twoUsers r (List.replicate k (PostOp.create 1 "A" 0)) =
        idSeq r.nextPostID k := by
  induction k with
  | zero =>
    intro r
    simp [assignedIDs, idSeq]
  | succ k ih =>
    intro r
    have hva : validateContent "A" = none := by decide
    have hv : (postServiceCreatePost twoUsers r 1 "A" 0).2 = none := by
      simp [postServiceCreatePost, twoUsers, hva, postRepoCreate]
    have hnext : (postServiceCreatePost twoUsers r 1 "A" 0).1.nextPostID =
        wrap64 (r.nextPostID + 1) := createPost_success_next _ _ _ _ _ hv
    rw [List.replicate_succ, assignedIDs, hv, idSeq,
      ih (postServiceCreatePost twoUsers r 1 "A" 0).1, hnext]

theorem idSeq_not_pairwise :
    ∀ (j : Nat) (n : Int), 0 ≤ n →
      n + (j : Int) + 2 = 9223372036854775809 →
      ¬ (idSeq n (j + 2)).Pairwise (· < ·) := by
  intro j
  induction j with
  | zero =>
    intro n _ hsum
    have hn : n = 9223372036854775807 := by push_cast at hsum; omega
    subst hn
    intro hp
    have hw : wrap64 (9223372036854775807 + 1) = -9223372036854775808 := by
      unfold wrap64
      omega
    rw [show idSeq 9223372036854775807 (0 + 2) =
        [(9223372036854775807 : Int),
          wrap64 (9223372036854775807 + 1)] from rfl, hw] at hp
    have hlt := (List.pairwise_cons.mp hp).1 (-9223372036854775808) (by simp)
    omega
  | succ j ih =>
    intro n h0 hsum
    push_cast at hsum
    intro hp
    rw [show idSeq n (j + 1 + 2) =
        n :: idSeq (wrap64 (n + 1)) (j + 2) from rfl] at hp
    have hw : wrap64 (n + 1) = n + 1 :=
      wrap64_eq_self _ (by omega) (by omega)
    rw [hw] at hp
    exact ih (n + 1) (by omega) (by omega)
      (List.Pairwise.of_cons hp)

/-- Counterexample to C8 as universally stated: over the explicit history of
2^63 consecutive successful creations by user 1 starting from the fresh
store, the 64-bit id counter wraps from 9223372036854775807 to
-9223372036854775808, so the assigned ids are not strictly increasing. -/
theorem c8_post_ids_counterexample :
    ¬ ((assignedIDs twoUsers emptyPostRepo
          (List.replicate 9223372036854775808 (PostOp.create 1 "A" 0))).Pairwise
        (· < ·) ∧
      (assignedIDs twoUsers emptyPostRepo
          (List.replicate 9223372036854775808 (PostOp.create 1 "A" 0))).Nodup) := by
  intro h
  have hrw := assignedIDs_replicate_create 9223372036854775808 emptyPostRepo
  have hemp : emptyPostRepo.nextPostID = 1 := rfl
  rw [hemp] at hrw
  rw [hrw] at h
  have hks : (9223372036854775808 : Nat) = 9223372036854775806 + 2 := by
    norm_num
  rw [hks] at h
  exact idSeq_not_pairwise 9223372036854775806 1 (by omega)
    (by norm_num) h.1

/-- C8 (amended): over any history of successful creations interleaved with
deletions starting from the fresh store in which the 64-bit id counter
cannot overflow (at most 2^63 - 2 operations), the ids assigned to newly
created posts are strictly increasing, and no assigned id (including ids of
later-deleted posts) is ever assigned again. -/
theorem c8_post_ids_strictly_increasing_never_reused (users : Int → Bool)
    (ops : List PostOp)
    (hlen : (ops.length : Int) ≤ 9223372036854775806) :
    (assignedIDs users emptyPostRepo ops).Pairwise (· < ·) ∧
    (assignedIDs users emptyPostRepo ops).Nodup := by
  have hemp : emptyPostRepo.nextPostID = 1 := rfl
  have hp := assignedIDs_pairwise users ops emptyPostRepo
    (by rw [hemp]; omega) (by rw [hemp]; omega)
  exact ⟨hp, List.Pairwise.imp ne_of_lt hp⟩

/-- Witness for the amended C8 at a short concrete history: two creations by
user 1, a deletion, then another creation. -/
theorem c8_post_ids_strictly_increasing_never_reused_witness :
    (([PostOp.create 1 "A" 0, PostOp.create 1 "B" 1, PostOp.delete 1,
        PostOp.create 1 "C" 2].length : Int) ≤ 9223372036854775806) ∧
    ((assignedIDs twoUsers emptyPostRepo
        [PostOp.create 1 "A" 0, PostOp.create 1 "B" 1, PostOp.delete 1,
          PostOp.create 1 "C" 2]).Pairwise (· < ·) ∧
      (assignedIDs twoUsers emptyPostRepo
        [PostOp.create 1 "A" 0, PostOp.create 1 "B" 1, PostOp.delete 1,
          PostOp.create 1 "C" 2]).Nodup) := by
  have hlen : (([PostOp.create 1 "A" 0, PostOp.create 1 "B" 1, PostOp.delete 1,
      PostOp.create 1 "C" 2].length : Int) ≤ 9223372036854775806) := by
    norm_num
  exact ⟨hlen, c8_post_ids_strictly_increasing_never_reused twoUsers
    [PostOp.create 1 "A" 0, PostOp.create 1 "B" 1, PostOp.delete 1,
      PostOp.create 1 "C" 2] hlen⟩

/-- C9: the content check accepts every string of exactly 300 length units,
rejects every string of 301 length units with
"content must be 300 characters or less", and rejects the empty string with
"content is required". -/
theorem c9_content_length_boundary (s : String) :
    (s.length = 300 → validateContent s = none) ∧
    (s.length = 301 →
      validateContent s = some "content must be 300 characters or less") ∧
    validateContent "" = some "content is required" := by
  refine ⟨?_, ?_, rfl⟩
  · intro hlen
    have hne : s ≠ "" := by
      intro hc
      subst hc
      simp at hlen
    simp [validateContent, hne, hlen, MaxPostContentLength]
  · intro hlen
    have hne : s ≠ "" := by
      intro hc
      subst hc
      simp at hlen
    simp [validateContent, hne, hlen, MaxPostContentLength]

set_option maxRecDepth 8192 in
/-- Witness for C9 at concrete strings of 300 and 301 copies of 'a'. -/
theorem c9_content_length_boundary_witness :
    ((String.mk (List.replicate 300 'a')).length = 300 ∧
      validateContent (String.mk (List.replicate 300 'a')) = none) ∧
    ((String.mk (List.replicate 301 'a')).length = 301 ∧
      validateContent (String.mk (List.replicate 301 'a')) =
        some "content must be 300 characters or less") ∧
    validateContent "" = some "content is required" := by
  have h300 : (String.mk (List.replicate 300 'a')).length = 300 := by decide
  have h301 : (String.mk (List.replicate 301 'a')).length = 301 := by decide
  exact ⟨⟨h300, (c9_content_length_boundary _).1 h300⟩,
    ⟨h301, (c9_content_length_boundary _).2.1 h301⟩,
    (c9_content_length_boundary "").2.2⟩
